import Mathlib

/-!
Verification of the rtalk chat-server session/broadcast core
(src/workshop/lab4/rtalk-finished/rtalk-server/src/main.rs).

Shallow embedding conventions:
* the `BTreeMap<u64, User>` registry becomes a key-sorted association list
  over `Nat` (`mapGet`/`mapInsert`/`mapRemoveKey` mirror `get`/`insert`/`remove`);
* each user's `tokio::sync::mpsc` channel (capacity 100) becomes an explicit
  `Channel` record: the list of queued events plus a `closed` flag recording
  that the receiver half has been dropped; channels are keyed by the id of
  the user they were created for in `State::add_user` (ids are never reused,
  so this identification is faithful);
* panics (`unwrap`, `expect`, `unimplemented!`) become `Option`/`Except`
  failure values carrying the panic message;
* the connection actor's inbound `select!` branch becomes the step function
  `handleInbound`, applied to one inbound item
  (`some (.ok e)` = decoded event, `some (.error ())` = decode failure,
  `none` = stream ended);
* the `RwLock` around `State` serializes mutations, so each locked Rust
  method becomes an atomic Lean function on the state.
-/

namespace RTalk

/-- The std `SocketAddr` peer address (only the V4 shape is needed here).
Its `Display` rendering is `a.b.c.d:p`; std's `Debug` implementation for
socket addresses delegates to `Display`, which `debugFmt` records. -/
inductive SocketAddr where
  | v4 (a b c d : Nat) (port : Nat)
deriving DecidableEq

def SocketAddr.display : SocketAddr → String
  | .v4 a b c d p =>
      toString a ++ "." ++ toString b ++ "." ++ toString c ++ "." ++ toString d
        ++ ":" ++ toString p

/-- Rendering of a socket address under the `{:?}` (Debug) format specifier:
std implements `Debug` for `SocketAddr` by delegating to `Display`. -/
def SocketAddr.debugFmt (ip : SocketAddr) : String :=
  ip.display

/-- Modelled from the spec: the `Event` type of the external `rtalk-codec`
crate (repository code not provided under src/); spec section 6 lists
exactly these six event kinds. -/
inductive Event where
  | RequestJoin (name : String)
  | Leave
  | MessageSend (msg : String)
  | Joined (label : String)
  | Left (label : String)
  | MessageReceived (who : String) (msg : String)
deriving DecidableEq

/-- The three kinds the codec may yield in the client-to-server direction
are exactly the ones this returns `false` for. -/
def Event.isServerOriginated : Event → Bool
  | .Joined _ => true
  | .Left _ => true
  | .MessageReceived _ _ => true
  | _ => false

/-- `struct User` (main.rs 17-21): `sender` is the user's outbound channel,
identified by the key it was allocated under in `State::add_user`. -/
structure User where
  name : Option String
  ip : SocketAddr
  sender : Nat
deriving DecidableEq

/-- `User::get_name` (main.rs 24-29): note the source formats the address
with `{:?}` in the named branch and `{}` in the anonymous branch. -/
def User.get_name (u : User) : String :=
  match u.name with
  | some name => name ++ " [" ++ u.ip.debugFmt ++ "]"
  | none => "anonymous [" ++ u.ip.display ++ "]"

/-- `struct State` (main.rs 32-35): the id counter and the
`BTreeMap<u64, User>` registry as a key-sorted association list. -/
structure State where
  counter : Nat
  users : List (Nat × User)
deriving DecidableEq

/-- `BTreeMap::get`: first entry with the given key. -/
def mapGet {β : Type} : List (Nat × β) → Nat → Option β
  | [], _ => none
  | (k, v) :: rest, i => if i = k then some v else mapGet rest i

/-- `BTreeMap::insert`: sorted insertion, replacing an entry with an
equal key. -/
def mapInsert {β : Type} : List (Nat × β) → Nat → β → List (Nat × β)
  | [], k, v => [(k, v)]
  | (k', v') :: rest, k, v =>
      if k < k' then (k, v) :: (k', v') :: rest
      else if k = k' then (k, v) :: rest
      else (k', v') :: mapInsert rest k v

/-- `BTreeMap::remove`: drops the first entry with the given key. -/
def mapRemoveKey {β : Type} : List (Nat × β) → Nat → List (Nat × β)
  | [], _ => []
  | (k', v') :: rest, k => if k = k' then rest else (k', v') :: mapRemoveKey rest k

/-- One user's outbound mpsc channel: the queued events, and whether the
receiver half has been dropped (the spawned actor task ended). -/
structure Channel where
  queue : List Event
  closed : Bool
deriving DecidableEq

/-- All channels, keyed by the id of the user each was created for. -/
abbrev Channels : Type := List (Nat × Channel)

/-- `true` iff sending on user `k`'s channel would fail
(no such channel, or its receiver has been dropped). -/
def chanClosed (c : Channels) (k : Nat) : Bool :=
  match mapGet c k with
  | some ch => ch.closed
  | none => true

/-- `State::add_user` (main.rs 40-99): increments the counter, takes the new
id, allocates the user's outbound channel, inserts the anonymous `User`,
and returns the new id.  The actor task spawned here is embedded separately
as `handleInbound`. -/
def State.add_user (s : State) (c : Channels) (ip : SocketAddr) : State × Channels × Nat :=
  let id := s.counter + 1
  ({ counter := id,
     users := mapInsert s.users id { name := none, ip := ip, sender := id } },
   mapInsert c id { queue := [], closed := false },
   id)

/-- `State::get_name` (main.rs 101-104): `none` models the `unwrap` panic on
an absent id. -/
def State.get_name (s : State) (id : Nat) : Option String :=
  (mapGet s.users id).map User.get_name

/-- `State::update_user` (main.rs 106-110): sets the name and returns the
updated display label; `none` models the `unwrap` panic on an absent id. -/
def State.update_user (s : State) (id : Nat) (name : String) : Option (State × String) :=
  match mapGet s.users id with
  | none => none
  | some u =>
      let u' := { u with name := some name }
      some ({ s with users := mapInsert s.users id u' }, u'.get_name)

/-- `Session::remove_user` (main.rs 143-146): removes the entry and returns
the removed user's final display label; `none` models the `unwrap` panic on
an absent id. -/
def Session.remove_user (s : State) (id : Nat) : Option (State × String) :=
  match mapGet s.users id with
  | none => none
  | some u => some ({ s with users := mapRemoveKey s.users id }, u.get_name)

/-- `Session::user_ids` (main.rs 148-156): the snapshot of registered ids,
in the registry's (BTreeMap) iteration order. -/
def Session.user_ids (s : State) : List Nat :=
  s.users.map (·.1)

/-- `Session::send_event` (main.rs 166-180): if the id is no longer
registered, return with no effect; otherwise push onto the recipient's
channel — `sender.send(evt).await.expect("Could not queue event to send")`
panics when the channel's receiver has been dropped, which the `.error`
value records.  Queue capacity (100) and the suspension of a sender on a
full queue are abstracted away: the queue is an unbounded list. -/
def Session.send_event (s : State) (c : Channels) (id : Nat) (evt : Event) :
    Except String Channels :=
  match mapGet s.users id with
  | none => .ok c
  | some u =>
      match mapGet c u.sender with
      | some ch =>
          if ch.closed then .error "Could not queue event to send"
          else .ok (mapInsert c u.sender { ch with queue := ch.queue ++ [evt] })
      | none => .error "Could not queue event to send"

/-- The delivery half of `Session::broadcast` (main.rs 158-164): one
`send_event` per id of the snapshot `snap`, looked up against the
delivery-time state `s`.  The source runs the sends concurrently via
`join_all`; each send touches only its own recipient's queue, so they are
sequentialized here.  A `.error` models a panic of the broadcasting task. -/
def broadcastDeliver (snap : List Nat) (s : State) (c : Channels) (gen : Unit → Event) :
    Except String Channels :=
  match snap with
  | [] => .ok c
  | i :: rest =>
      match Session.send_event s c i (gen ()) with
      | .ok c' => broadcastDeliver rest s c' gen
      | .error m => .error m

/-- `Session::broadcast` (main.rs 158-164): snapshot the registered ids,
then deliver `gen ()` to each (the source calls `event_gen()` once per
recipient; `gen` is pure, so every call yields the same event). -/
def Session.broadcast (s : State) (c : Channels) (gen : Unit → Event) :
    Except String Channels :=
  broadcastDeliver (Session.user_ids s) s c gen

/-- The receiver half of user `k`'s channel is dropped (its actor task
ended): sends on it will now fail. -/
def closeChan (c : Channels) (k : Nat) : Channels :=
  match mapGet c k with
  | some ch => mapInsert c k { ch with closed := true }
  | none => c

/-- User `k`'s actor consumes the head of its own outbound queue
(the `rx.next()` branch of the `select!`). -/
def drainChan (c : Channels) (k : Nat) : Channels :=
  match mapGet c k with
  | some ch => mapInsert c k { ch with queue := ch.queue.tail }
  | none => c

/-- Outcome of one iteration of the actor loop on an inbound item. -/
inductive ActorOutcome where
  | continueLoop (s : State) (c : Channels)
  | breakLoop (s : State) (c : Channels)
  | panicked (msg : String)
deriving DecidableEq

/-- The panic message of `Option::unwrap` on `None`. -/
def unwrapMsg : String := "called unwrap on None"

/-- The inbound (`event = network.next()`) branch of the actor loop spawned
in `State::add_user` (main.rs 63-83), applied to one inbound item.
`some (.ok e)` is a decoded event, `some (.error ())` a decode failure,
`none` the end of the stream.  The source guards the item with
`if let Some(Ok(event))`: a decode failure or stream end matches neither,
so the body is skipped and the loop continues unchanged — the final
catch-all of the `match` is `_ => unimplemented!()`. -/
def handleInbound (s : State) (c : Channels) (id : Nat) (item : Option (Except Unit Event)) :
    ActorOutcome :=
  match item with
  | some (.ok e) =>
      match e with
      | .RequestJoin name =>
          match State.update_user s id name with
          | some (s', label) =>
              match Session.broadcast s' c (fun _ => .Joined label) with
              | .ok c' => .continueLoop s' c'
              | .error m => .panicked m
          | none => .panicked unwrapMsg
      | .Leave =>
          match Session.remove_user s id with
          | some (s', label) =>
              match Session.broadcast s' c (fun _ => .Left label) with
              | .ok c' => .breakLoop s' c'
              | .error m => .panicked m
          | none => .panicked unwrapMsg
      | .MessageSend msg =>
          match State.get_name s id with
          | some who =>
              match Session.broadcast s c (fun _ => .MessageReceived who msg) with
              | .ok c' => .continueLoop s c'
              | .error m => .panicked m
          | none => .panicked unwrapMsg
      | _ => .panicked "not implemented"
  | _ => .continueLoop s c

/-- A sequence of registrations through `Session::add_user` (main.rs
128-133).  `Session::add_user` takes the registry's write lock for the
whole of `State::add_user`, so concurrent registrations are serialized:
a list of registrations is their serialization order.  Returns the final
state, the final channels, and the ids handed out in order. -/
def runRegistrations : State → Channels → List SocketAddr → State × Channels × List Nat
  | s, c, [] => (s, c, [])
  | s, c, ip :: rest =>
      let r := State.add_user s c ip
      let rr := runRegistrations r.1 r.2.1 rest
      (rr.1, rr.2.1, r.2.2 :: rr.2.2)

/-- Registry invariant: keys strictly ascending (the BTreeMap order),
every key at most the counter (ids are minted by incrementing it), and
every user's channel is keyed by the user's own id. -/
def State.WF (s : State) : Prop :=
  List.Pairwise (· < ·) (s.users.map (·.1)) ∧
  (∀ p ∈ s.users, p.1 ≤ s.counter) ∧
  (∀ p ∈ s.users, (p.2).sender = p.1)

instance (s : State) : Decidable (State.WF s) := by
  unfold State.WF
  infer_instance

/-- States and channels reachable from `Session::new` (main.rs 119-126)
by the operations of the core: registration, rename, removal, a
successful delivery, a receiver being dropped, and an actor draining its
own queue. -/
inductive Reachable : State → Channels → Prop where
  | init : Reachable { counter := 0, users := [] } []
  | add {s c} (ip : SocketAddr) : Reachable s c →
      Reachable (State.add_user s c ip).1 (State.add_user s c ip).2.1
  | update {s c s' l} (id : Nat) (name : String) : Reachable s c →
      State.update_user s id name = some (s', l) → Reachable s' c
  | remove {s c s' l} (id : Nat) : Reachable s c →
      Session.remove_user s id = some (s', l) → Reachable s' c
  | send {s c c'} (id : Nat) (e : Event) : Reachable s c →
      Session.send_event s c id e = .ok c' → Reachable s c'
  | close {s c} (k : Nat) : Reachable s c → Reachable s (closeChan c k)
  | drain {s c} (k : Nat) : Reachable s c → Reachable s (drainChan c k)

/-- Address `1.2.3.4:5`, the spec's running example. -/
def exAddr : SocketAddr := .v4 1 2 3 4 5

def exUser : User := { name := none, ip := exAddr, sender := 1 }

/-- The state after one registration from `exAddr`. -/
def exState : State := { counter := 1, users := [(1, exUser)] }

def exChans : Channels := [(1, { queue := [], closed := false })]

/-- Same registry, but user 1's connection has been torn down: the
receiver half of its channel is gone. -/
def exChansClosed : Channels := [(1, { queue := [], closed := true })]

def exUser2 : User := { name := some "bob", ip := .v4 9 8 7 6 5, sender := 2 }

/-- A state with two registered users. -/
def exState2 : State := { counter := 2, users := [(1, exUser), (2, exUser2)] }

def exChans2 : Channels :=
  [(1, { queue := [], closed := false }), (2, { queue := [], closed := false })]

theorem mapGet_mapInsert_self {β : Type} (m : List (Nat × β)) (k : Nat) (v : β) :
    mapGet (mapInsert m k v) k = some v := by
  induction m with
  | nil => simp [mapInsert, mapGet]
  | cons p rest ih =>
      obtain ⟨k', v'⟩ := p
      by_cases h1 : k < k'
      · simp [mapInsert, h1, mapGet]
      · by_cases h2 : k = k'
        · simp [mapInsert, h1, h2, mapGet]
        · simp [mapInsert, h1, h2, mapGet, ih]

theorem mapGet_mapInsert_ne {β : Type} (m : List (Nat × β)) (k j : Nat) (v : β)
    (h : j ≠ k) : mapGet (mapInsert m k v) j = mapGet m j := by
  induction m with
  | nil => simp [mapInsert, mapGet, h]
  | cons p rest ih =>
      obtain ⟨k', v'⟩ := p
      by_cases h1 : k < k'
      · simp [mapInsert, h1, mapGet, h]
      · by_cases h2 : k = k'
        · subst h2
          simp [mapInsert, h1, mapGet, h]
        · by_cases h3 : j = k'
          · simp [mapInsert, h1, h2, mapGet, h3]
          · simp [mapInsert, h1, h2, mapGet, h3, ih]

theorem mem_mapInsert {β : Type} {m : List (Nat × β)} {k : Nat} {v : β} {p : Nat × β}
    (h : p ∈ mapInsert m k v) : p = (k, v) ∨ p ∈ m := by
  induction m with
  | nil =>
      simp only [mapInsert, List.mem_singleton] at h
      exact Or.inl h
  | cons q rest ih =>
      obtain ⟨k', v'⟩ := q
      by_cases h1 : k < k'
      · rw [show mapInsert ((k', v') :: rest) k v = (k, v) :: (k', v') :: rest by
          simp [mapInsert, h1]] at h
        rcases List.mem_cons.1 h with h | h
        · exact Or.inl h
        · exact Or.inr h
      · by_cases h2 : k = k'
        · rw [show mapInsert ((k', v') :: rest) k v = (k, v) :: rest by
            simp [mapInsert, h1, h2]] at h
          rcases List.mem_cons.1 h with h | h
          · exact Or.inl h
          · exact Or.inr (List.mem_cons_of_mem _ h)
        · rw [show mapInsert ((k', v') :: rest) k v = (k', v') :: mapInsert rest k v by
            simp [mapInsert, h1, h2]] at h
          rcases List.mem_cons.1 h with h | h
          · exact Or.inr (h ▸ List.mem_cons_self _ _)
          · rcases ih h with h' | h'
            · exact Or.inl h'
            · exact Or.inr (List.mem_cons_of_mem _ h')

theorem keys_mem_mapInsert {β : Type} {m : List (Nat × β)} {k : Nat} {v : β} {x : Nat}
    (h : x ∈ (mapInsert m k v).map Prod.fst) : x = k ∨ x ∈ m.map Prod.fst := by
  rcases List.mem_map.1 h with ⟨p, hp, hx⟩
  rcases mem_mapInsert hp with h' | h'
  · subst h'
    exact Or.inl hx.symm
  · exact Or.inr (hx ▸ List.mem_map_of_mem Prod.fst h')

theorem pairwise_keys_mapInsert {β : Type} {m : List (Nat × β)} (k : Nat) (v : β)
    (h : List.Pairwise (· < ·) (m.map Prod.fst)) :
    List.Pairwise (· < ·) ((mapInsert m k v).map Prod.fst) := by
  induction m with
  | nil => simp [mapInsert]
  | cons p rest ih =>
      obtain ⟨k', v'⟩ := p
      simp only [List.map_cons, List.pairwise_cons] at h
      obtain ⟨hlt, hrest⟩ := h
      by_cases h1 : k < k'
      · rw [show mapInsert ((k', v') :: rest) k v = (k, v) :: (k', v') :: rest by
          simp [mapInsert, h1]]
        simp only [List.map_cons, List.pairwise_cons]
        refine ⟨?_, hlt, hrest⟩
        intro x hx
        simp only [List.mem_cons] at hx
        rcases hx with hx | hx
        · exact hx ▸ h1
        · exact lt_trans h1 (hlt x hx)
      · by_cases h2 : k = k'
        · rw [show mapInsert ((k', v') :: rest) k v = (k, v) :: rest by
            simp [mapInsert, h1, h2]]
          subst h2
          simp only [List.map_cons, List.pairwise_cons]
          exact ⟨hlt, hrest⟩
        · rw [show mapInsert ((k', v') :: rest) k v = (k', v') :: mapInsert rest k v by
            simp [mapInsert, h1, h2]]
          simp only [List.map_cons, List.pairwise_cons]
          refine ⟨?_, ih hrest⟩
          intro x hx
          rcases keys_mem_mapInsert hx with hx' | hx'
          · subst hx'
            omega
          · exact hlt x hx'

theorem mapGet_mem {β : Type} {m : List (Nat × β)} {k : Nat} {v : β}
    (h : mapGet m k = some v) : (k, v) ∈ m := by
  induction m with
  | nil => simp [mapGet] at h
  | cons p rest ih =>
      obtain ⟨k', v'⟩ := p
      by_cases h1 : k = k'
      · subst h1
        simp [mapGet] at h
        simp [h]
      · simp [mapGet, h1] at h
        exact List.mem_cons_of_mem _ (ih h)

theorem mapGet_isSome_iff {β : Type} (m : List (Nat × β)) (k : Nat) :
    (mapGet m k).isSome = true ↔ k ∈ m.map Prod.fst := by
  induction m with
  | nil => simp [mapGet]
  | cons p rest ih =>
      obtain ⟨k', v'⟩ := p
      by_cases h1 : k = k'
      · subst h1
        simp [mapGet]
      · simp [mapGet, h1, ih]

theorem mapGet_eq_none_of_not_mem {β : Type} {m : List (Nat × β)} {k : Nat}
    (h : k ∉ m.map Prod.fst) : mapGet m k = none := by
  cases hm : mapGet m k with
  | none => rfl
  | some v =>
      exact absurd ((mapGet_isSome_iff m k).1 (by simp [hm])) h

theorem mapRemoveKey_sublist {β : Type} (m : List (Nat × β)) (k : Nat) :
    List.Sublist (mapRemoveKey m k) m := by
  induction m with
  | nil => simp [mapRemoveKey]
  | cons p rest ih =>
      obtain ⟨k', v'⟩ := p
      by_cases h1 : k = k'
      · simp [mapRemoveKey, h1]
      · rw [show mapRemoveKey ((k', v') :: rest) k = (k', v') :: mapRemoveKey rest k by
          simp [mapRemoveKey, h1]]
        exact List.Sublist.cons₂ (k', v') ih

theorem mapGet_mapRemoveKey_ne {β : Type} (m : List (Nat × β)) (i j : Nat)
    (h : j ≠ i) : mapGet (mapRemoveKey m i) j = mapGet m j := by
  induction m with
  | nil => simp [mapRemoveKey]
  | cons p rest ih =>
      obtain ⟨k', v'⟩ := p
      by_cases h1 : i = k'
      · subst h1
        simp [mapRemoveKey, mapGet, h]
      · by_cases h2 : j = k'
        · simp [mapRemoveKey, mapGet, h1, h2]
        · simp [mapRemoveKey, mapGet, h1, h2, ih]

theorem mapGet_mapRemoveKey_self {β : Type} (m : List (Nat × β)) (i : Nat)
    (h : List.Pairwise (· < ·) (m.map Prod.fst)) :
    mapGet (mapRemoveKey m i) i = none := by
  induction m with
  | nil => simp [mapRemoveKey, mapGet]
  | cons p rest ih =>
      obtain ⟨k', v'⟩ := p
      simp only [List.map_cons, List.pairwise_cons] at h
      obtain ⟨hlt, hrest⟩ := h
      by_cases h1 : i = k'
      · subst h1
        simp only [mapRemoveKey, if_pos rfl]
        apply mapGet_eq_none_of_not_mem
        intro hmem
        exact absurd (hlt i hmem) (lt_irrefl i)
      · simp [mapRemoveKey, h1, mapGet, ih hrest]

theorem keys_mapInsert_of_mem {β : Type} {m : List (Nat × β)} {k : Nat} {u : β} (v : β)
    (hp : List.Pairwise (· < ·) (m.map Prod.fst))
    (h : mapGet m k = some u) :
    (mapInsert m k v).map Prod.fst = m.map Prod.fst := by
  induction m with
  | nil => simp [mapGet] at h
  | cons p rest ih =>
      obtain ⟨k', v'⟩ := p
      simp only [List.map_cons, List.pairwise_cons] at hp
      obtain ⟨hlt, hrest⟩ := hp
      by_cases h2 : k = k'
      · subst h2
        simp [mapInsert, lt_irrefl]
      · have hmem : k ∈ rest.map Prod.fst := by
          have : (mapGet rest k).isSome = true := by
            simp [mapGet, h2] at h
            simp [h]
          exact (mapGet_isSome_iff rest k).1 this
        have h1 : ¬ k < k' := by
          have := hlt k hmem
          omega
        simp only [mapGet, h2, if_neg] at h
        simp [mapInsert, h1, h2, List.map_cons, ih hrest h]

theorem update_user_some {s : State} {id : Nat} {name : String} {s' : State} {l : String}
    (h : State.update_user s id name = some (s', l)) :
    ∃ u, mapGet s.users id = some u ∧
      s' = { s with users := mapInsert s.users id { u with name := some name } } ∧
      l = User.get_name { u with name := some name } := by
  cases hg : mapGet s.users id with
  | none => simp [State.update_user, hg] at h
  | some u =>
      simp only [State.update_user, hg, Option.some.injEq, Prod.mk.injEq] at h
      exact ⟨u, rfl, h.1.symm, h.2.symm⟩

theorem remove_user_some {s : State} {id : Nat} {s' : State} {l : String}
    (h : Session.remove_user s id = some (s', l)) :
    ∃ u, mapGet s.users id = some u ∧
      s' = { s with users := mapRemoveKey s.users id } ∧
      l = u.get_name := by
  cases hg : mapGet s.users id with
  | none => simp [Session.remove_user, hg] at h
  | some u =>
      simp only [Session.remove_user, hg, Option.some.injEq, Prod.mk.injEq] at h
      exact ⟨u, rfl, h.1.symm, h.2.symm⟩

theorem wf_add (s : State) (c : Channels) (ip : SocketAddr) (h : State.WF s) :
    State.WF (State.add_user s c ip).1 := by
  obtain ⟨hp, hb, hsd⟩ := h
  simp only [State.add_user]
  refine ⟨pairwise_keys_mapInsert _ _ hp, ?_, ?_⟩
  · intro p hm
    rcases mem_mapInsert hm with h' | h'
    · subst h'
      simp
    · exact le_trans (hb p h') (Nat.le_succ _)
  · intro p hm
    rcases mem_mapInsert hm with h' | h'
    · subst h'
      rfl
    · exact hsd p h'

theorem wf_update {s s' : State} {id : Nat} {name : String} {l : String}
    (h : State.WF s) (hu : State.update_user s id name = some (s', l)) :
    State.WF s' := by
  obtain ⟨u, hg, hs', _⟩ := update_user_some hu
  subst hs'
  obtain ⟨hp, hb, hsd⟩ := h
  have hmem : (id, u) ∈ s.users := mapGet_mem hg
  refine ⟨pairwise_keys_mapInsert _ _ hp, ?_, ?_⟩
  · intro p hm
    rcases mem_mapInsert hm with h' | h'
    · subst h'
      simpa using hb (id, u) hmem
    · exact hb p h'
  · intro p hm
    rcases mem_mapInsert hm with h' | h'
    · subst h'
      simpa using hsd (id, u) hmem
    · exact hsd p h'

theorem wf_remove {s s' : State} {id : Nat} {l : String}
    (h : State.WF s) (hu : Session.remove_user s id = some (s', l)) : State.WF s' := by
  obtain ⟨u, _, hs', _⟩ := remove_user_some hu
  subst hs'
  obtain ⟨hp, hb, hsd⟩ := h
  refine ⟨?_, ?_, ?_⟩
  · exact List.Pairwise.sublist (List.Sublist.map Prod.fst (mapRemoveKey_sublist s.users id)) hp
  · intro p hm
    exact hb p ((mapRemoveKey_sublist s.users id).subset hm)
  · intro p hm
    exact hsd p ((mapRemoveKey_sublist s.users id).subset hm)

theorem Reachable.wf {s : State} {c : Channels} (h : Reachable s c) : State.WF s := by
  induction h with
  | init => exact ⟨List.Pairwise.nil, by simp, by simp⟩
  | add ip _ ih => exact wf_add _ _ ip ih
  | update id name _ hu ih => exact wf_update ih hu
  | remove id _ hu ih => exact wf_remove ih hu
  | send id e _ _ ih => exact ih
  | close k _ ih => exact ih
  | drain k _ ih => exact ih

theorem chanClosed_false_iff (c : Channels) (k : Nat) :
    chanClosed c k = false ↔ ∃ ch, mapGet c k = some ch ∧ ch.closed = false := by
  unfold chanClosed
  cases h : mapGet c k with
  | none => simp
  | some ch => simp

theorem chanClosed_mapInsert_ne (c : Channels) (k j : Nat) (ch : Channel) (h : j ≠ k) :
    chanClosed (mapInsert c k ch) j = chanClosed c j := by
  unfold chanClosed
  rw [mapGet_mapInsert_ne c k j ch h]

theorem send_event_absent {s : State} {c : Channels} {id : Nat} (e : Event)
    (h : mapGet s.users id = none) : Session.send_event s c id e = .ok c := by
  unfold Session.send_event
  rw [h]

theorem send_event_open {s : State} {c : Channels} {id : Nat} {u : User} {ch : Channel}
    (e : Event) (hu : mapGet s.users id = some u) (hc : mapGet c u.sender = some ch)
    (ho : ch.closed = false) :
    Session.send_event s c id e =
      .ok (mapInsert c u.sender { ch with queue := ch.queue ++ [e] }) := by
  simp [Session.send_event, hu, hc, ho]

theorem send_event_closed {s : State} {c : Channels} {id : Nat} {u : User} (e : Event)
    (hu : mapGet s.users id = some u) (hc : chanClosed c u.sender = true) :
    Session.send_event s c id e = .error "Could not queue event to send" := by
  unfold chanClosed at hc
  cases h : mapGet c u.sender with
  | none => simp [Session.send_event, hu, h]
  | some ch =>
      rw [h] at hc
      simp only at hc
      simp [Session.send_event, hu, h, hc]

theorem send_event_error_msg {s : State} {c : Channels} {id : Nat} {e : Event} {m : String}
    (h : Session.send_event s c id e = .error m) : m = "Could not queue event to send" := by
  cases hu : mapGet s.users id with
  | none => simp [Session.send_event, hu] at h
  | some u =>
      cases hc : mapGet c u.sender with
      | none =>
          simp [Session.send_event, hu, hc] at h
          exact h.symm
      | some ch =>
          by_cases hcl : ch.closed = true
          · simp [Session.send_event, hu, hc, hcl] at h
            exact h.symm
          · simp [Session.send_event, hu, hc, hcl] at h

theorem broadcastDeliver_cons (i : Nat) (rest : List Nat) (s : State) (c : Channels)
    (gen : Unit → Event) :
    broadcastDeliver (i :: rest) s c gen =
      match Session.send_event s c i (gen ()) with
      | .ok c' => broadcastDeliver rest s c' gen
      | .error m => .error m := rfl

theorem broadcastDeliver_error_msg {s : State} {gen : Unit → Event} :
    ∀ {snap : List Nat} {c : Channels} {m : String},
      broadcastDeliver snap s c gen = .error m → m = "Could not queue event to send" := by
  intro snap
  induction snap with
  | nil =>
      intro c m h
      cases h
  | cons i rest ih =>
      intro c m h
      rw [broadcastDeliver_cons] at h
      cases hs : Session.send_event s c i (gen ()) with
      | ok c' =>
          rw [hs] at h
          exact ih h
      | error m' =>
          rw [hs] at h
          cases h
          exact send_event_error_msg hs

theorem broadcastDeliver_spec (gen : Unit → Event) (s : State) :
    ∀ (snap : List Nat) (c : Channels),
      snap.Nodup →
      (∀ i ∈ snap, ∀ u, mapGet s.users i = some u → u.sender = i) →
      (∀ i ∈ snap, (mapGet s.users i).isSome = true → chanClosed c i = false) →
      ∃ c', broadcastDeliver snap s c gen = .ok c' ∧
        ∀ k, mapGet c' k =
          if k ∈ snap ∧ (mapGet s.users k).isSome = true then
            (mapGet c k).map (fun ch => { ch with queue := ch.queue ++ [gen ()] })
          else mapGet c k := by
  intro snap
  induction snap with
  | nil =>
      intro c _ _ _
      refine ⟨c, rfl, ?_⟩
      intro k
      simp
  | cons i rest ih =>
      intro c hnd hsend hopen
      obtain ⟨hi, hndr⟩ := List.nodup_cons.1 hnd
      cases hreg : mapGet s.users i with
      | none =>
          obtain ⟨c', hok, hkey⟩ := ih c hndr
            (fun j hj => hsend j (List.mem_cons_of_mem _ hj))
            (fun j hj => hopen j (List.mem_cons_of_mem _ hj))
          refine ⟨c', ?_, ?_⟩
          · rw [broadcastDeliver_cons, send_event_absent (gen ()) hreg]
            exact hok
          · intro k
            rw [hkey k]
            by_cases hk : k = i
            · subst hk
              rw [if_neg (by simp [hreg]), if_neg (by simp [hreg])]
            · by_cases hc2 : k ∈ rest ∧ (mapGet s.users k).isSome = true
              · rw [if_pos hc2, if_pos ⟨List.mem_cons_of_mem _ hc2.1, hc2.2⟩]
              · rw [if_neg hc2,
                  if_neg (fun hcc => hc2 ⟨(List.mem_cons.1 hcc.1).resolve_left hk, hcc.2⟩)]
      | some u =>
          have hsi : u.sender = i := hsend i (List.mem_cons_self i rest) u hreg
          have hcl : chanClosed c i = false :=
            hopen i (List.mem_cons_self i rest) (by simp [hreg])
          obtain ⟨ch, hc, hchcl⟩ := (chanClosed_false_iff c i).1 hcl
          have hstep : Session.send_event s c i (gen ()) =
              .ok (mapInsert c i { ch with queue := ch.queue ++ [gen ()] }) := by
            have hstep0 := send_event_open (gen ()) hreg (by rw [hsi]; exact hc) hchcl
            rw [hsi] at hstep0
            exact hstep0
          obtain ⟨c', hok, hkey⟩ := ih (mapInsert c i { ch with queue := ch.queue ++ [gen ()] })
            hndr (fun j hj => hsend j (List.mem_cons_of_mem _ hj))
            (by
              intro j hj hjs
              have hji : j ≠ i := fun hh => hi (hh ▸ hj)
              rw [chanClosed_mapInsert_ne _ _ _ _ hji]
              exact hopen j (List.mem_cons_of_mem _ hj) hjs)
          refine ⟨c', ?_, ?_⟩
          · rw [broadcastDeliver_cons, hstep]
            exact hok
          · intro k
            by_cases hk : k = i
            · subst hk
              have hnotin : ¬ (k ∈ rest ∧ (mapGet s.users k).isSome = true) :=
                fun hh => hi hh.1
              rw [hkey k, if_neg hnotin, mapGet_mapInsert_self,
                if_pos ⟨List.mem_cons_self _ _, by simp [hreg]⟩, hc]
              rfl
            · have hgk : mapGet (mapInsert c i { ch with queue := ch.queue ++ [gen ()] }) k
                  = mapGet c k := mapGet_mapInsert_ne _ _ _ _ hk
              rw [hkey k]
              by_cases hc2 : k ∈ rest ∧ (mapGet s.users k).isSome = true
              · rw [if_pos hc2, if_pos ⟨List.mem_cons_of_mem _ hc2.1, hc2.2⟩, hgk]
              · rw [if_neg hc2, hgk,
                  if_neg (fun hcc => hc2 ⟨(List.mem_cons.1 hcc.1).resolve_left hk, hcc.2⟩)]

theorem runRegistrations_ids (ips : List SocketAddr) :
    ∀ (s : State) (c : Channels),
      (runRegistrations s c ips).2.2 = List.range' (s.counter + 1) ips.length := by
  induction ips with
  | nil => intro s c; rfl
  | cons ip rest ih =>
      intro s c
      have hstep : (runRegistrations s c (ip :: rest)).2.2
          = (s.counter + 1) ::
            (runRegistrations (State.add_user s c ip).1 (State.add_user s c ip).2.1 rest).2.2 :=
        rfl
      rw [hstep, ih]
      rfl

/-- Claim C1 (code bug): on a decode failure (`some (.error ())`) or the end
of the inbound stream (`none`), the `if let Some(Ok(event))` guard of the
actor's inbound branch matches neither, so the item is ignored and the loop
continues with state and channels unchanged — the actor does not terminate,
contrary to the spec's requirement that these are treated as a disconnect. -/
theorem actor_ignores_disconnect_items :
    ∀ (s : State) (c : Channels) (id : Nat),
      handleInbound s c id none = .continueLoop s c ∧
      handleInbound s c id (some (.error ())) = .continueLoop s c :=
  fun _ _ _ => ⟨rfl, rfl⟩

/-- Claim C2, counterexample: user 1 is still registered but its connection
has been torn down (the receiver half of its channel was dropped); the
delivery is not silently dropped — `send_event`'s
`expect("Could not queue event to send")` panics the broadcasting task. -/
theorem send_event_torn_down_errors :
    Session.send_event exState exChansClosed 1 (Event.MessageSend "hi") =
      .error "Could not queue event to send" :=
  rfl

/-- Claim C2, amended: a delivery to an id that is not registered at
delivery time is a silent no-op; a delivery to a still-registered recipient
whose channel is closed (connection torn down) panics the broadcasting task
with "Could not queue event to send"; a delivery to a registered recipient
with an open channel enqueues the event on its outbound queue. -/
theorem send_event_dispatch (s : State) (c : Channels) (id : Nat) (e : Event) :
    (mapGet s.users id = none → Session.send_event s c id e = .ok c) ∧
    (∀ u, mapGet s.users id = some u → chanClosed c u.sender = true →
      Session.send_event s c id e = .error "Could not queue event to send") ∧
    (∀ u ch, mapGet s.users id = some u → mapGet c u.sender = some ch →
      ch.closed = false →
      Session.send_event s c id e =
        .ok (mapInsert c u.sender { ch with queue := ch.queue ++ [e] })) :=
  ⟨fun h => send_event_absent e h,
   fun _ hu hc => send_event_closed e hu hc,
   fun _ _ hu hc ho => send_event_open e hu hc ho⟩

/-- Witness for the amended C2 theorem: id 5 is unregistered (no-op), id 1
is registered with a closed channel (panic), id 1 registered with an open
channel (enqueue). -/
theorem send_event_dispatch_witness :
    Session.send_event exState exChans 5 (Event.MessageSend "hi") = .ok exChans ∧
    Session.send_event exState exChansClosed 1 (Event.MessageSend "hi") =
      .error "Could not queue event to send" ∧
    Session.send_event exState exChans 1 (Event.MessageSend "hi") =
      .ok (mapInsert exChans 1 { queue := [Event.MessageSend "hi"], closed := false }) :=
  ⟨(send_event_dispatch exState exChans 5 (Event.MessageSend "hi")).1 rfl,
   (send_event_dispatch exState exChansClosed 1 (Event.MessageSend "hi")).2.1 exUser rfl rfl,
   (send_event_dispatch exState exChans 1 (Event.MessageSend "hi")).2.2 exUser
     { queue := [], closed := false } rfl rfl rfl⟩

/-- Claim C3: `User::get_name` renders the label as
"{name} [{addr}]" when a name is set and "anonymous [{addr}]" otherwise,
and the address is rendered identically in both branches (std's `Debug`
for socket addresses delegates to `Display`); concretely, a never-joined
user at 1.2.3.4:5 has label "anonymous [1.2.3.4:5]", and after
`RequestJoin("bob")` the returned label is "bob [1.2.3.4:5]". -/
theorem get_name_label_format :
    (∀ u : User, u.get_name =
        (match u.name with
         | some n => n
         | none => "anonymous") ++ " [" ++ u.ip.display ++ "]") ∧
    exUser.get_name = "anonymous [1.2.3.4:5]" ∧
    (State.update_user exState 1 "bob").map (fun r => r.2) = some "bob [1.2.3.4:5]" := by
  refine ⟨?_, rfl, rfl⟩
  intro u
  cases h : u.name with
  | some n =>
      simp only [User.get_name, SocketAddr.debugFmt, h]
  | none =>
      simp only [User.get_name, h]
      rw [show ("anonymous" : String) ++ " [" = "anonymous [" from rfl]

/-- Claim C4: the ids handed out by a (write-lock-serialized) sequence of
registrations are exactly `counter+1, counter+2, ...` in completion order:
strictly increasing, hence pairwise distinct, and each strictly greater
than every previously returned id. -/
theorem registration_ids_strictly_increasing (s : State) (c : Channels)
    (ips : List SocketAddr) :
    (runRegistrations s c ips).2.2 = List.range' (s.counter + 1) ips.length ∧
    List.Pairwise (· < ·) (runRegistrations s c ips).2.2 ∧
    (runRegistrations s c ips).2.2.Nodup := by
  have h := runRegistrations_ids ips s c
  rw [h]
  exact ⟨rfl, List.pairwise_lt_range' _ _, List.nodup_range' _ _⟩

/-- Claim C5: broadcast first snapshots the registered ids (`user_ids`
taken on the snapshot state `s₀`), then delivers the produced event to
each snapshot member's outbound queue, looked up against the delivery-time
state `s₁`: every snapshot member still registered at delivery receives
the event exactly once (its queue gains exactly one copy), and a user not
in the snapshot — in particular one registered after it was taken — has
its channel untouched.  The event factory `gen` is pure, so the event
produced by its per-recipient invocation is `gen ()` for every recipient. -/
theorem broadcast_snapshot_exactly_once (s₀ s₁ : State) (c : Channels)
    (gen : Unit → Event) (h₀ : State.WF s₀) (h₁ : State.WF s₁)
    (hopen : ∀ i ∈ Session.user_ids s₀,
      (mapGet s₁.users i).isSome = true → chanClosed c i = false) :
    ∃ c', broadcastDeliver (Session.user_ids s₀) s₁ c gen = .ok c' ∧
      ∀ k, mapGet c' k =
        if k ∈ Session.user_ids s₀ ∧ (mapGet s₁.users k).isSome = true then
          (mapGet c k).map (fun ch => { ch with queue := ch.queue ++ [gen ()] })
        else mapGet c k := by
  apply broadcastDeliver_spec gen s₁ (Session.user_ids s₀) c
  · exact h₀.1.imp (fun hlt => Nat.ne_of_lt hlt)
  · intro i _ u hu
    exact h₁.2.2 (i, u) (mapGet_mem hu)
  · exact hopen

/-- Witness for C5 at a concrete two-user state (snapshot state equal to
delivery state, both channels open). -/
theorem broadcast_snapshot_exactly_once_witness :
    ∃ c', broadcastDeliver (Session.user_ids exState2) exState2 exChans2
        (fun _ => Event.MessageReceived "a" "hi") = .ok c' ∧
      ∀ k, mapGet c' k =
        if k ∈ Session.user_ids exState2 ∧ (mapGet exState2.users k).isSome = true then
          (mapGet exChans2 k).map
            (fun ch => { ch with queue := ch.queue ++ [Event.MessageReceived "a" "hi"] })
        else mapGet exChans2 k :=
  broadcast_snapshot_exactly_once exState2 exState2 exChans2
    (fun _ => Event.MessageReceived "a" "hi") (by decide) (by decide) (by decide)

/-- Claim C7: `State::get_name` and `Session::remove_user` `unwrap` — i.e.
fail fatally, modelled by `none` — when the id is absent from the registry;
when the id is present, `remove_user` deletes exactly that entry and
returns the removed user's final display label (deletion in the sense that
the id no longer resolves, given the registry invariant). -/
theorem lookup_and_remove_absent_panic (s : State) (id : Nat) :
    (mapGet s.users id = none →
      State.get_name s id = none ∧ Session.remove_user s id = none) ∧
    (∀ u, mapGet s.users id = some u →
      State.get_name s id = some u.get_name ∧
      Session.remove_user s id =
        some ({ s with users := mapRemoveKey s.users id }, u.get_name)) ∧
    (∀ u, mapGet s.users id = some u → State.WF s →
      mapGet (mapRemoveKey s.users id) id = none) := by
  refine ⟨?_, ?_, ?_⟩
  · intro h
    exact ⟨by simp [State.get_name, h], by simp [Session.remove_user, h]⟩
  · intro u h
    exact ⟨by simp [State.get_name, h], by simp [Session.remove_user, h]⟩
  · intro u _ hwf
    exact mapGet_mapRemoveKey_self s.users id hwf.1

/-- Witness for C7: id 5 is absent (both operations panic), id 1 is present
(removal returns the final label and deletes the entry). -/
theorem lookup_and_remove_absent_panic_witness :
    (State.get_name exState 5 = none ∧ Session.remove_user exState 5 = none) ∧
    (State.get_name exState 1 = some exUser.get_name ∧
      Session.remove_user exState 1 =
        some ({ exState with users := mapRemoveKey exState.users 1 }, exUser.get_name)) ∧
    mapGet (mapRemoveKey exState.users 1) 1 = none :=
  ⟨(lookup_and_remove_absent_panic exState 5).1 rfl,
   (lookup_and_remove_absent_panic exState 1).2.1 exUser rfl,
   (lookup_and_remove_absent_panic exState 1).2.2 exUser rfl (by decide)⟩

/-- Claim C9: in every reachable state, `Session::user_ids` returns exactly
the currently registered ids (membership iff a registry lookup succeeds),
and in strictly ascending numeric order — a consequence of the
`BTreeMap`-backed registry. -/
theorem user_ids_sorted_and_complete (s : State) (c : Channels) (h : Reachable s c) :
    List.Pairwise (· < ·) (Session.user_ids s) ∧
    ∀ id, id ∈ Session.user_ids s ↔ (mapGet s.users id).isSome = true :=
  ⟨h.wf.1, fun id => (mapGet_isSome_iff s.users id).symm⟩

/-- Witness for C9 at the reachable one-user state. -/
theorem user_ids_sorted_and_complete_witness :
    List.Pairwise (· < ·) (Session.user_ids exState) ∧
    ∀ id, id ∈ Session.user_ids exState ↔ (mapGet exState.users id).isSome = true :=
  user_ids_sorted_and_complete exState exChans (Reachable.add exAddr Reachable.init)

/-- Claim C10: removing a registered id touches only that registry entry —
every other id still resolves to the identical `User` (same name, address
and sender), the counter is unchanged, and the next registration mints a
fresh id that equals neither the removed id nor any still-registered id. -/
theorem remove_user_frame (s : State) (c : Channels) (i : Nat) (u : User)
    (hr : Reachable s c) (hu : mapGet s.users i = some u) :
    ∃ s', Session.remove_user s i = some (s', u.get_name) ∧
      s'.counter = s.counter ∧
      (∀ j, j ≠ i → mapGet s'.users j = mapGet s.users j) ∧
      mapGet s'.users i = none ∧
      ∀ (c₂ : Channels) (ip : SocketAddr),
        (State.add_user s' c₂ ip).2.2 ≠ i ∧
        (State.add_user s' c₂ ip).2.2 ∉ Session.user_ids s' := by
  have hwf := hr.wf
  refine ⟨{ s with users := mapRemoveKey s.users i },
    by simp [Session.remove_user, hu], rfl, ?_, ?_, ?_⟩
  · intro j hj
    exact mapGet_mapRemoveKey_ne s.users i j hj
  · exact mapGet_mapRemoveKey_self s.users i hwf.1
  · intro c₂ ip
    have hid : (State.add_user { s with users := mapRemoveKey s.users i } c₂ ip).2.2
        = s.counter + 1 := rfl
    have hle : i ≤ s.counter := hwf.2.1 (i, u) (mapGet_mem hu)
    constructor
    · rw [hid]
      omega
    · rw [hid]
      intro hmem
      rcases List.mem_map.1 hmem with ⟨p, hp, hpk⟩
      have hple : p.1 ≤ s.counter :=
        hwf.2.1 p ((mapRemoveKey_sublist s.users i).subset hp)
      omega

/-- Witness for C10 at the reachable one-user state. -/
theorem remove_user_frame_witness :
    ∃ s', Session.remove_user exState 1 = some (s', exUser.get_name) ∧
      s'.counter = exState.counter ∧
      (∀ j, j ≠ 1 → mapGet s'.users j = mapGet exState.users j) ∧
      mapGet s'.users 1 = none ∧
      ∀ (c₂ : Channels) (ip : SocketAddr),
        (State.add_user s' c₂ ip).2.2 ≠ 1 ∧
        (State.add_user s' c₂ ip).2.2 ∉ Session.user_ids s' :=
  remove_user_frame exState exChans 1 exUser (Reachable.add exAddr Reachable.init) rfl

theorem broadcast_error_msg {s : State} {c : Channels} {gen : Unit → Event} {m : String}
    (h : Session.broadcast s c gen = .error m) : m = "Could not queue event to send" := by
  unfold Session.broadcast at h
  exact broadcastDeliver_error_msg h

/-- Claim C8: the actor's inbound dispatch hits the
`_ => unimplemented!()` branch — panic message "not implemented" —
exactly for the server-originated kinds `Joined`, `Left` and
`MessageReceived`; for the three client-originated kinds the branch is
unreachable (whatever else happens, that panic is never produced), so
under the codec's contract of yielding only client-originated kinds it
never fires. -/
theorem inbound_unimplemented_iff_server_originated (s : State) (c : Channels)
    (id : Nat) (e : Event) :
    handleInbound s c id (some (.ok e)) = .panicked "not implemented" ↔
      e.isServerOriginated = true := by
  cases e with
  | Joined l => simp [handleInbound, Event.isServerOriginated]
  | Left l => simp [handleInbound, Event.isServerOriginated]
  | MessageReceived w m => simp [handleInbound, Event.isServerOriginated]
  | RequestJoin name =>
      simp only [Event.isServerOriginated, Bool.false_eq_true, iff_false]
      intro h
      rcases hup : State.update_user s id name with _ | ⟨s', l⟩
      · simp only [handleInbound, hup] at h
        exact absurd (ActorOutcome.panicked.inj h) (by decide)
      · cases hbc : Session.broadcast s' c (fun _ => Event.Joined l) with
        | ok c' =>
            simp only [handleInbound, hup, hbc] at h
            exact ActorOutcome.noConfusion h
        | error m =>
            simp only [handleInbound, hup, hbc] at h
            exact absurd ((ActorOutcome.panicked.inj h).symm.trans (broadcast_error_msg hbc))
              (by decide)
  | Leave =>
      simp only [Event.isServerOriginated, Bool.false_eq_true, iff_false]
      intro h
      rcases hrm : Session.remove_user s id with _ | ⟨s', l⟩
      · simp only [handleInbound, hrm] at h
        exact absurd (ActorOutcome.panicked.inj h) (by decide)
      · cases hbc : Session.broadcast s' c (fun _ => Event.Left l) with
        | ok c' =>
            simp only [handleInbound, hrm, hbc] at h
            exact ActorOutcome.noConfusion h
        | error m =>
            simp only [handleInbound, hrm, hbc] at h
            exact absurd ((ActorOutcome.panicked.inj h).symm.trans (broadcast_error_msg hbc))
              (by decide)
  | MessageSend msg =>
      simp only [Event.isServerOriginated, Bool.false_eq_true, iff_false]
      intro h
      rcases hgn : State.get_name s id with _ | who
      · simp only [handleInbound, hgn] at h
        exact absurd (ActorOutcome.panicked.inj h) (by decide)
      · cases hbc : Session.broadcast s c (fun _ => Event.MessageReceived who msg) with
        | ok c' =>
            simp only [handleInbound, hgn, hbc] at h
            exact ActorOutcome.noConfusion h
        | error m =>
            simp only [handleInbound, hgn, hbc] at h
            exact absurd ((ActorOutcome.panicked.inj h).symm.trans (broadcast_error_msg hbc))
              (by decide)

theorem user_ids_update (s : State) {id : Nat} {u : User} (v : User)
    (hp : List.Pairwise (· < ·) (s.users.map (·.1)))
    (h : mapGet s.users id = some u) :
    Session.user_ids { s with users := mapInsert s.users id v } = Session.user_ids s :=
  keys_mapInsert_of_mem v hp h

theorem isSome_mapInsert_of_mem {β : Type} {m : List (Nat × β)} {k : Nat} {u : β} (v : β)
    (h : mapGet m k = some u) :
    ∀ j, (mapGet (mapInsert m k v) j).isSome = (mapGet m j).isSome := by
  intro j
  by_cases hj : j = k
  · subst hj
    rw [mapGet_mapInsert_self, h]
    rfl
  · rw [mapGet_mapInsert_ne _ _ _ _ hj]

/-- Claim C6: for a registered id, `State::update_user` sets the name and
returns the display label computed from the new name; a second call with
the same name yields the same label; and each `RequestJoin` handled by the
connection actor triggers a fresh `Joined(label)` broadcast — handling it
twice appends two separate `Joined` events to every registered user's
outbound queue (no deduplication). -/
theorem request_join_sets_name_and_rebroadcasts (s : State) (c : Channels) (id : Nat)
    (u : User) (name : String) (hwf : State.WF s) (hu : mapGet s.users id = some u)
    (hopen : ∀ i ∈ Session.user_ids s, chanClosed c i = false) :
    ∃ s' c' s'' c'' l,
      State.update_user s id name = some (s', l) ∧
      l = User.get_name { u with name := some name } ∧
      State.update_user s' id name = some (s'', l) ∧
      handleInbound s c id (some (.ok (.RequestJoin name))) = .continueLoop s' c' ∧
      handleInbound s' c' id (some (.ok (.RequestJoin name))) = .continueLoop s'' c'' ∧
      ∀ k, (mapGet s.users k).isSome = true →
        ∃ ch ch₁ ch₂, mapGet c k = some ch ∧ mapGet c' k = some ch₁ ∧
          mapGet c'' k = some ch₂ ∧
          ch₁.queue = ch.queue ++ [Event.Joined l] ∧ ch₁.closed = ch.closed ∧
          ch₂.queue = ch.queue ++ [Event.Joined l, Event.Joined l] := by
  set L : String := User.get_name { u with name := some name } with hL
  set A : State := { s with users := mapInsert s.users id { u with name := some name } }
    with hA
  have hupd1 : State.update_user s id name = some (A, L) := by
    rw [hA, hL]
    simp [State.update_user, hu]
  have hwfA : State.WF A := wf_update hwf hupd1
  have hidsA : Session.user_ids A = Session.user_ids s :=
    user_ids_update s { u with name := some name } hwf.1 hu
  have hregA : ∀ j, (mapGet A.users j).isSome = (mapGet s.users j).isSome :=
    isSome_mapInsert_of_mem { u with name := some name } hu
  obtain ⟨c', hbc1, hkey1⟩ := broadcastDeliver_spec (fun _ => Event.Joined L) A
    (Session.user_ids A) c
    (hwfA.1.imp fun hlt => Nat.ne_of_lt hlt)
    (fun i _ v hv => hwfA.2.2 (i, v) (mapGet_mem hv))
    (by
      intro i hi _
      rw [hidsA] at hi
      exact hopen i hi)
  have hh1 : handleInbound s c id (some (.ok (.RequestJoin name))) = .continueLoop A c' := by
    simp only [handleInbound, hupd1]
    rw [show Session.broadcast A c (fun _ => Event.Joined L) = .ok c' from hbc1]
  have hgetA : mapGet A.users id = some { u with name := some name } := by
    rw [hA]
    exact mapGet_mapInsert_self _ _ _
  have hupd2 : State.update_user A id name
      = some ({ A with users := mapInsert A.users id { u with name := some name } }, L) := by
    rw [hL]
    simp [State.update_user, hgetA]
  set B : State := { A with users := mapInsert A.users id { u with name := some name } }
    with hB
  have hwfB : State.WF B := wf_update hwfA hupd2
  have hidsB : Session.user_ids B = Session.user_ids A :=
    user_ids_update A { u with name := some name } hwfA.1 hgetA
  have hregB : ∀ j, (mapGet B.users j).isSome = (mapGet A.users j).isSome :=
    isSome_mapInsert_of_mem { u with name := some name } hgetA
  have hopen' : ∀ i ∈ Session.user_ids B, chanClosed c' i = false := by
    intro i hi
    rw [hidsB, hidsA] at hi
    have hreg : (mapGet s.users i).isSome = true := (mapGet_isSome_iff s.users i).2 hi
    have hiA : i ∈ Session.user_ids A := by rw [hidsA]; exact hi
    have hsomeA : (mapGet A.users i).isSome = true := (hregA i).trans hreg
    have hkey := hkey1 i
    rw [if_pos ⟨hiA, hsomeA⟩] at hkey
    obtain ⟨ch, hch, hcl⟩ := (chanClosed_false_iff c i).1 (hopen i hi)
    rw [hch] at hkey
    unfold chanClosed
    rw [hkey]
    exact hcl
  obtain ⟨c'', hbc2, hkey2⟩ := broadcastDeliver_spec (fun _ => Event.Joined L) B
    (Session.user_ids B) c'
    (hwfB.1.imp fun hlt => Nat.ne_of_lt hlt)
    (fun i _ v hv => hwfB.2.2 (i, v) (mapGet_mem hv))
    (fun i hi _ => hopen' i hi)
  have hh2 : handleInbound A c' id (some (.ok (.RequestJoin name))) = .continueLoop B c'' := by
    simp only [handleInbound, hupd2]
    rw [show Session.broadcast B c' (fun _ => Event.Joined L) = .ok c'' from hbc2]
  refine ⟨A, c', B, c'', L, hupd1, hL, hupd2, hh1, hh2, ?_⟩
  intro k hk
  have hkids : k ∈ Session.user_ids s := (mapGet_isSome_iff s.users k).1 hk
  obtain ⟨ch, hch, _⟩ := (chanClosed_false_iff c k).1 (hopen k hkids)
  have hkA : k ∈ Session.user_ids A := by rw [hidsA]; exact hkids
  have hsomeA : (mapGet A.users k).isSome = true := (hregA k).trans hk
  have h1 := hkey1 k
  rw [if_pos ⟨hkA, hsomeA⟩, hch] at h1
  have hkB : k ∈ Session.user_ids B := by rw [hidsB]; exact hkA
  have hsomeB : (mapGet B.users k).isSome = true := (hregB k).trans hsomeA
  have h2 := hkey2 k
  rw [if_pos ⟨hkB, hsomeB⟩, h1] at h2
  refine ⟨ch, _, _, hch, h1, h2, rfl, rfl, ?_⟩
  show (ch.queue ++ [Event.Joined L]) ++ [Event.Joined L]
      = ch.queue ++ [Event.Joined L, Event.Joined L]
  rw [List.append_assoc]
  rfl

/-- Witness for C6: two `RequestJoin("bob")` items handled from the
reachable one-user state. -/
theorem request_join_sets_name_and_rebroadcasts_witness :
    ∃ s' c' s'' c'' l,
      State.update_user exState 1 "bob" = some (s', l) ∧
      l = User.get_name { exUser with name := some "bob" } ∧
      State.update_user s' 1 "bob" = some (s'', l) ∧
      handleInbound exState exChans 1 (some (.ok (.RequestJoin "bob"))) =
        .continueLoop s' c' ∧
      handleInbound s' c' 1 (some (.ok (.RequestJoin "bob"))) = .continueLoop s'' c'' ∧
      ∀ k, (mapGet exState.users k).isSome = true →
        ∃ ch ch₁ ch₂, mapGet exChans k = some ch ∧ mapGet c' k = some ch₁ ∧
          mapGet c'' k = some ch₂ ∧
          ch₁.queue = ch.queue ++ [Event.Joined l] ∧ ch₁.closed = ch.closed ∧
          ch₂.queue = ch.queue ++ [Event.Joined l, Event.Joined l] :=
  request_join_sets_name_and_rebroadcasts exState exChans 1 exUser "bob"
    (by decide) rfl (by decide)

end RTalk
